import Mathlib

/-!
Verification of the py-asterisk Manager API client (Asterisk/Manager.py,
Asterisk/Util.py) against its natural-language specification.

Python strings are modelled as `List Char` (named `Str`), fallible code as
`Except Err`, and the `AttributeDict` packet type as an association list with
dict insertion semantics (update-in-place on existing key, append on fresh
key), which matches Python dict behaviour on the unique-key lists produced
here.
-/

/-- Model of a Python `str`. -/
abbrev Str := List Char

instance {ε α : Type} [DecidableEq ε] [DecidableEq α] : DecidableEq (Except ε α) := fun a b =>
  match a, b with
  | .error x, .error y =>
      if h : x = y then .isTrue (by rw [h]) else .isFalse (by simp [h])
  | .ok x, .ok y =>
      if h : x = y then .isTrue (by rw [h]) else .isFalse (by simp [h])
  | .error _, .ok _ => .isFalse (by simp)
  | .ok _, .error _ => .isFalse (by simp)

/-- The exception kinds raised by the modelled code paths.  `keyError`,
`typeError` and `attributeError` stand for Python's built-in exceptions,
`malformed` for the `ValueError` escaping the header-line unpacking, the
rest for the module's own exception classes. -/
inductive Err where
  | goneAway
  | communicationError
  | internalError
  | keyError
  | typeError
  | attributeError
  | subscriptionError
  | malformed
  | actionFailed
  deriving DecidableEq, Repr

/-- A header value inside a packet: a plain string, the nested mapping used
for the multi-value fields, a channel reference produced by
`BaseManager._get_channel`, or the `Lines` list of a `Follows` response. -/
inductive HVal where
  | str (s : Str)
  | nested (m : List (Str × Str))
  | chan (zap : Bool) (id : Str)
  | lins (ls : List Str)
  deriving DecidableEq, Repr

/-- A packet: an `AttributeDict` from header name to value. -/
abbrev Packet := List (Str × HVal)

/-- Association-list lookup with propositional key equality. -/
def plookup [DecidableEq κ] (k : κ) : List (κ × α) → Option α
  | [] => none
  | (k', v) :: rest => if k' = k then some v else plookup k rest

/-- Python dict assignment `d[k] = v`: update in place when `k` is present,
append `(k, v)` otherwise. -/
def dInsert [DecidableEq κ] : List (κ × α) → κ → α → List (κ × α)
  | [], k, v => [(k, v)]
  | (k', v') :: rest, k, v =>
      if k' = k then (k', v) :: rest else (k', v') :: dInsert rest k v

/-- Python `k in d`. -/
def hasKeyP [DecidableEq κ] (p : List (κ × α)) (k : κ) : Bool :=
  (plookup k p).isSome

/-- Python `d.pop(k)` (removal part; lists built by `dInsert` have unique
keys, so removing every occurrence coincides with dict removal). -/
def popKey [DecidableEq κ] : List (κ × α) → κ → List (κ × α)
  | [], _ => []
  | (k', v) :: rest, k =>
      if k' = k then popKey rest k else (k', v) :: popKey rest k

/-- Python `str.split(c)` for a single separator character. -/
def splitOnChar (c : Char) : Str → List Str
  | [] => [[]]
  | ch :: rest =>
      let r := splitOnChar c rest
      if ch = c then [] :: r
      else
        match r with
        | a :: as => (ch :: a) :: as
        | [] => [[ch]]

/-- Characters stripped by Python's `str.rstrip()` with no argument. -/
def isPyWs (c : Char) : Bool :=
  c = ' ' || c = '\t' || c = '\n' || c = '\r' || c = '\x0b' || c = '\x0c'

/-- Python `str.rstrip()`. -/
def pyRstrip (l : Str) : Str :=
  (l.reverse.dropWhile isPyWs).reverse

/-- Model of `AttributeDict.MULTI_VALUE_FIELD`. -/
def isMultiValueField (key : Str) : Bool :=
  key = "ChanVariable".data || key = "DestChanVariable".data

/-- First segment of `value.split('=')`. -/
def seg0 (s : Str) : Str := (splitOnChar '=' s).headD []

/-- Second segment of `value.split('=')` (what the source keeps as the
sub-value: `value.split('=')[:2]` takes segments 0 and 1, not the full
remainder after the first `=`). -/
def seg1 (s : Str) : Str := ((splitOnChar '=' s).drop 1).headD []

/-- Model of `AttributeDict.__setitem__` for a string value.  Multi-value fields whose
value contains `=` collapse into a nested mapping; assigning such a value when
the slot already holds a non-mapping is Python's `TypeError` from
`self[key][k] = v`. -/
def setItemStr (d : Packet) (key : Str) (value : Str) : Except Err Packet :=
  if isMultiValueField key && value.contains '=' then
    match plookup key d with
    | some (.nested m) => .ok (dInsert d key (.nested (dInsert m (seg0 value) (seg1 value))))
    | some _ => .error .typeError
    | none => .ok (dInsert d key (.nested [(seg0 value, seg1 value)]))
  else
    .ok (dInsert d key (.str value))

/-- Insert a whole sequence of values under one header name, as repeated
inbound header lines would. -/
def foldSetItem (key : Str) (d : Packet) (vs : List Str) : Except Err Packet :=
  vs.foldlM (fun d v => setItemStr d key v) d

/-- Model of `BaseManager._get_channel`: channel ids whose first three characters
lowercase to `"zap"` become Zapata channels. -/
def getChannel (s : Str) : HVal :=
  .chan ((s.take 3).map Char.toLower = "zap".data) s

/-- The string Python's `'%s' % value` yields for the values that reach it
here: header values on inbound packets are strings, and a translated channel
formats as its channel id (`BaseChannel.__str__`).  The remaining
constructors do not occur as `Event` header values. -/
def fmtHVal : HVal → Str
  | .str s => s
  | .chan _ id => id
  | .nested _ => []
  | .lins _ => []

/-- Model of `BaseManager._translate_event`: replace the values of any `Channel`,
`Channel1`, `Channel2` headers with channel references.  Only string values
occur for these headers on inbound packets. -/
def translateEvent (p : Packet) : Packet :=
  ["Channel".data, "Channel1".data, "Channel2".data].foldl
    (fun p key =>
      match plookup key p with
      | some (.str s) => dInsert p key (getChannel s)
      | _ => p) p

/-- Which event handlers exist on the manager instance: `specific ev` is
`getattr(self, 'on_' + ev, None) is not None`, `fallback` is the presence of
`on_Event`. -/
structure Handlers where
  specific : Str → Bool
  fallback : Bool

/-- The event name used for handler lookup: `'on_%s' % packet.Event`. -/
def evName (p : Packet) : Str :=
  fmtHVal ((plookup "Event".data p).getD (.str []))

/-- Outcome of `BaseManager._dispatch_packet`. -/
inductive DispatchOut where
  | buffered
  | specific (ev : Str) (p : Packet)
  | fallback (ev : Str) (p : Packet)
  deriving DecidableEq, Repr

/-- Model of `BaseManager._dispatch_packet`: packets with a `Response` header go to the
response buffer; otherwise packets with an `Event` header are translated and
handed to `on_<Event>`, falling back to `on_Event`; with no handler, and for
packets with neither header, `InternalError` is raised. -/
def dispatchPacket (hs : Handlers) (p : Packet) : Except Err DispatchOut :=
  if hasKeyP p "Response".data then .ok .buffered
  else if hasKeyP p "Event".data then
    if hs.specific (evName (translateEvent p)) then
      .ok (.specific (evName (translateEvent p)) (translateEvent p))
    else if hs.fallback then
      .ok (.fallback (evName (translateEvent p)) (translateEvent p))
    else .error .internalError
  else .error .internalError

/-- The buffer scan at the top of `BaseManager.read_response`: find the first
buffered packet whose `ActionID` equals `id`, returning it and the buffer
with it removed.  A buffered packet with no `ActionID` header raises
`KeyError` (`packet.ActionID`). -/
def scanBuffer (id : Str) : List Packet → Except Err (Option (Packet × List Packet))
  | [] => .ok none
  | p :: ps =>
      match plookup "ActionID".data p with
      | none => .error .keyError
      | some v =>
          if v = .str id then .ok (some (p, ps))
          else
            match scanBuffer id ps with
            | .error e => .error e
            | .ok none => .ok none
            | .ok (some (q, qs)) => .ok (some (q, p :: qs))

/-- Result of one `read_response` call: the packet handed to the awaiter, the
final deferred-response buffer, the unread part of the inbound stream, and
the (translated) event packets that were handed to event handlers. -/
structure RRResult where
  ret : Packet
  buffer : List Packet
  rest : List Packet
  dispatched : List Packet
  deriving DecidableEq, Repr

/-- Model of `BaseManager.read_response id`, run over a finite inbound packet stream.
Each loop iteration first scans the deferred buffer, then reads the next
packet: `Event`-carrying packets are fed to `_dispatch_packet` (which buffers
them when they also carry `Response`), a packet with no `Event` and no
`ActionID` raises `CommunicationError`, a matching `ActionID` is returned
with the `ActionID` header popped, and anything else is appended to the
buffer.  Reading past the end of the stream is the EOF `GoneAwayError` from
`_read_packet`. -/
def rrGo (hs : Handlers) (id : Str) : List Packet → List Packet → Except Err RRResult
  | [], buffer =>
      match scanBuffer id buffer with
      | .error e => .error e
      | .ok (some (p, buf')) => .ok ⟨popKey p "ActionID".data, buf', [], []⟩
      | .ok none => .error .goneAway
  | p :: ps, buffer =>
      match scanBuffer id buffer with
      | .error e => .error e
      | .ok (some (q, buf')) => .ok ⟨popKey q "ActionID".data, buf', p :: ps, []⟩
      | .ok none =>
          if hasKeyP p "Event".data then
            match dispatchPacket hs p with
            | .error e => .error e
            | .ok .buffered => rrGo hs id ps (buffer ++ [p])
            | .ok (.specific _ q) =>
                match rrGo hs id ps buffer with
                | .error e => .error e
                | .ok r => .ok { r with dispatched := q :: r.dispatched }
            | .ok (.fallback _ q) =>
                match rrGo hs id ps buffer with
                | .error e => .error e
                | .ok r => .ok { r with dispatched := q :: r.dispatched }
          else if ¬ hasKeyP p "ActionID".data then .error .communicationError
          else if plookup "ActionID".data p = some (.str id) then
            .ok ⟨popKey p "ActionID".data, buffer, ps, []⟩
          else rrGo hs id ps (buffer ++ [p])

/-- Python `line.split(': ', 1)` when it succeeds: split at the first
occurrence of colon-space. -/
def splitColonSpace : Str → Option (Str × Str)
  | [] => none
  | [_] => none
  | c :: d :: rest =>
      if c = ':' ∧ d = ' ' then some ([], rest)
      else
        match splitColonSpace (d :: rest) with
        | some (a, b) => some (c :: a, b)
        | none => none

/-- Python `line.count(':')`. -/
def countColon (l : Str) : Nat := l.count ':'

/-- The header-line parse inside `BaseManager._read_packet`: a line with
exactly one colon which is its last character is an empty field; otherwise
the line is split on the first colon-space, and a line with no such
separator raises (the `ValueError` escaping the unpacking, the spec's
`Malformed`). -/
def parseHeaderLine (l : Str) : Except Err (Str × Str) :=
  if countColon l = 1 ∧ l.getLast? = some ':' then .ok (l.dropLast, [])
  else
    match splitColonSpace l with
    | some (k, v) => .ok (k, v)
    | none => .error .malformed

/-- Python `line.startswith(pat)`. -/
def leadsWith : Str → Str → Bool
  | [], _ => true
  | _ :: _, [] => false
  | p :: ps, c :: cs => p = c && leadsWith ps cs

/-- Loop body of `BaseManager._read_response_follows`, over a finite list of
input lines (`lineNr` is the number of the line about to be read; EOF makes
`readline` return an empty string, which hits the return branch).  Returns
the accumulated `Lines`, the lifted `ActionID`, and the unread input; the
return branch consumes one extra line. -/
def rrfGo : List Str → Nat → List Str → Option Str → (List Str × Option Str × List Str)
  | [], _, acc, aid => (acc, aid, [])
  | l :: ls, lineNr, acc, aid =>
      let line := pyRstrip l
      if lineNr = 1 ∧ leadsWith "ActionID: ".data line then
        rrfGo ls (lineNr + 1) acc (some (line.drop 10))
      else if line = [] ∨ line = "--END COMMAND--".data then
        (acc, aid, ls.drop 1)
      else rrfGo ls (lineNr + 1) (acc ++ [line]) aid

/-- Model of `BaseManager._read_response_follows`: the packet is created with
`Response: Follows` and the `Lines` list; an `ActionID` found on the first
line is set on the packet. -/
def readResponseFollows (input : List Str) : Packet × List Str :=
  match rrfGo input 1 [] none with
  | (lns, aid, rest) =>
      let base : Packet := [("Response".data, .str "Follows".data),
                            ("Lines".data, .lins lns)]
      (match aid with
       | some a => dInsert base "ActionID".data (.str a)
       | none => base, rest)

/-- Modelled from the spec: the wire encoding of the body of a
`Response: Follows` packet (the part after the `Response: Follows` header
line), which is produced by the Asterisk server and is not part of this
repository: an optional `ActionID: ` line first, then the payload lines, then
the `--END COMMAND--` terminator and one empty separator line. -/
def encodeFollowsBody (aid : Option Str) (lins : List Str) : List Str :=
  (match aid with
   | some a => ["ActionID: ".data ++ a]
   | none => []) ++ lins ++ ["--END COMMAND--".data, []]

/-- Loop of `BaseManager._read_packet` over a finite list of input lines.
An empty (rstripped) line ends the packet — `GoneAwayError` if nothing was
read yet; a `Response: Follows` header hands over to
`_read_response_follows`; any other header line is parsed and stored through
`AttributeDict.__setitem__`. -/
def readPacketGo : List Str → Packet → Except Err (Packet × List Str)
  | [], packet => if packet = [] then .error .goneAway else .ok (packet, [])
  | l :: ls, packet =>
      let line := pyRstrip l
      if line = [] then
        if packet = [] then .error .goneAway else .ok (packet, ls)
      else
        match parseHeaderLine line with
        | .error e => .error e
        | .ok (key, val) =>
            if key = "Response".data ∧ val = "Follows".data then
              .ok (readResponseFollows ls)
            else
              match setItemStr packet key val with
              | .error e => .error e
              | .ok p' => readPacketGo ls p'

/-- Model of `BaseManager._read_packet`.  The `discard_events` parameter is accepted
but, exactly as in the source, never consulted by the body. -/
def readPacket (input : List Str) (discard_events : Bool := false) :
    Except Err (Packet × List Str) :=
  readPacketGo input []

/-- Model of `BaseManager.close` after the `Logoff` action has been written: read one
packet (passing `discard_events = True`), then test `packet.Response` —
`KeyError` when the packet has no `Response` header, `CommunicationError`
when it is not `Goodbye`, success otherwise. -/
def closeModel (input : List Str) : Except Err Unit :=
  match readPacket input true with
  | .error e => .error e
  | .ok (packet, _) =>
      match plookup "Response".data packet with
      | none => .error .keyError
      | some v =>
          if v = .str "Goodbye".data then .ok () else .error .communicationError

/-- Model of `BaseManager._write_action`: mint the ActionID as `str(time.time())`
(here the caller passes the clock reading's string form), emit the `Action`
and `ActionID` lines, then one line per mapping item whose value is not
`None`, then the blank terminator.  Returns the id and the emitted lines. -/
def writeActionModel (clock : Str) (action : Str) (data : List (Str × Option Str)) :
    Str × List Str :=
  let id := clock
  (id, ["Action: ".data ++ action, "ActionID: ".data ++ id] ++
        data.filterMap (fun kv => kv.2.map (fun v => kv.1 ++ ": ".data ++ v)) ++
        [[]])

/-- Model of `CoreActions.Originate` up to the point where the action is written:
`has_dialplan` is `None not in (channel, context, extension)` (`priority` is
not consulted), `has_application` is `application is not None`; both or
neither raise `ActionFailed`, then a falsy channel (absent or empty) raises
`ActionFailed`; otherwise the action is written. -/
def OriginateModel (clock : Str)
    (channel context extension priority application dataArg timeout
     caller_id variableArg account : Option Str) (async_flag : Bool) :
    Except Err (Str × List Str) :=
  let has_dialplan := channel.isSome && context.isSome && extension.isSome
  let has_application := application.isSome
  if has_dialplan && has_application then .error .actionFailed
  else if !(has_dialplan || has_application) then .error .actionFailed
  else if channel = none ∨ channel = some [] then .error .actionFailed
  else .ok (writeActionModel clock "Originate".data
    [("Channel".data, channel), ("Context".data, context),
     ("Exten".data, extension), ("Priority".data, priority),
     ("Application".data, application), ("Data".data, dataArg),
     ("Timeout".data, timeout), ("CallerID".data, caller_id),
     ("Variable".data, variableArg), ("Account".data, account),
     ("Async".data, some (if async_flag then "1".data else "0".data))])

/-- Model of `BaseManager.strip_evinfo`: copy the event and delete its `ActionID` and
`Event` members (in that order; a missing member is `KeyError`). -/
def stripEvinfo (event : Packet) : Except Err Packet :=
  if ¬ hasKeyP event "ActionID".data then .error .keyError
  else
    let e1 := popKey event "ActionID".data
    if ¬ hasKeyP e1 "Event".data then .error .keyError
    else .ok (popKey e1 "Event".data)

/-- One queue record of the `QueueStatus` aggregate: the remaining event
fields plus the `members` and `entries` sub-dicts. -/
structure QueueInfo where
  fields : Packet
  members : List (HVal × Packet)
  entries : List (HVal × Packet)
  deriving DecidableEq, Repr

/-- The temporary `QueueParams` handler inside `CoreActions.QueueStatus`:
strip event info, add empty `members` and `entries`, key the aggregate by
the popped `Queue` value. -/
def queueParamsH (queues : List (HVal × QueueInfo)) (event : Packet) :
    Except Err (List (HVal × QueueInfo)) :=
  match stripEvinfo event with
  | .error e => .error e
  | .ok q =>
      match plookup "Queue".data q with
      | none => .error .keyError
      | some qk => .ok (dInsert queues qk ⟨popKey q "Queue".data, [], []⟩)

/-- The temporary `QueueMember` handler inside `CoreActions.QueueStatus`:
`queues[member.pop('Queue')]['members'][member.pop('Location')] = member`. -/
def queueMemberH (queues : List (HVal × QueueInfo)) (event : Packet) :
    Except Err (List (HVal × QueueInfo)) :=
  match stripEvinfo event with
  | .error e => .error e
  | .ok member =>
      match plookup "Queue".data member with
      | none => .error .keyError
      | some qk =>
          let member1 := popKey member "Queue".data
          match plookup qk queues with
          | none => .error .keyError
          | some qi =>
              match plookup "Location".data member1 with
              | none => .error .keyError
              | some lk =>
                  .ok (dInsert queues qk
                    { qi with members :=
                        dInsert qi.members lk (popKey member1 "Location".data) })

/-- The temporary `QueueEntry` handler inside `CoreActions.QueueStatus`:
`queues[entry.pop('Queue')]['entries'][event.pop('Channel')] = entry` — the
source pops `Channel` from the original `event`, not from the stored copy
`entry`. -/
def queueEntryH (queues : List (HVal × QueueInfo)) (event : Packet) :
    Except Err (List (HVal × QueueInfo)) :=
  match stripEvinfo event with
  | .error e => .error e
  | .ok entry =>
      match plookup "Queue".data entry with
      | none => .error .keyError
      | some qk =>
          let entry1 := popKey entry "Queue".data
          match plookup qk queues with
          | none => .error .keyError
          | some qi =>
              match plookup "Channel".data event with
              | none => .error .keyError
              | some ck =>
                  .ok (dInsert queues qk
                    { qi with entries := dInsert qi.entries ck entry1 })

/-- Model of `Asterisk.Util.EventCollection`: event name → ordered handler list.
Handlers are modelled by opaque numeric identities. -/
structure EventColl where
  subs : List (Str × List Nat)
  deriving DecidableEq, Repr

/-- Model of `EventCollection.subscribe`: create the list for a fresh name, refuse a
duplicate `(name, handler)` pair, append otherwise. -/
def subscribeEC (c : EventColl) (name : Str) (h : Nat) : Except Err EventColl :=
  let cur := (plookup name c.subs).getD []
  if h ∈ cur then .error .subscriptionError
  else .ok ⟨dInsert c.subs name (cur ++ [h])⟩

/-- Model of `EventCollection.copy`: the source builds a fresh collection but falls
off the end of the function without returning it, so the caller receives
`None`. -/
def copyEC (_c : EventColl) : Option EventColl := none

/-- The `(name, handler)` pairs of a collection in the iteration order of
`__iadd__`'s nested loops. -/
def iaddFlatten (other : EventColl) : List (Str × Nat) :=
  other.subs.flatMap (fun p => p.2.map (fun h => (p.1, h)))

/-- The subscription loop of `EventCollection.__iadd__`: subscribe pairs one
by one, stopping at the first duplicate (returning the state reached so far
and the offending pair). -/
def iaddGo (c : EventColl) : List (Str × Nat) → EventColl × Option (Str × Nat)
  | [] => (c, none)
  | (n, h) :: rest =>
      match subscribeEC c n h with
      | .ok c' => iaddGo c' rest
      | .error _ => (c, some (n, h))

/-- Model of `EventCollection.__iadd__`: snapshot via `copy()` (which yields `None`),
merge, and on a duplicate attempt the rollback `self.subscriptions =
new.subscriptions` — which raises `AttributeError` on `None` before any
assignment, leaving the partially merged state in place. -/
def iaddEC (c other : EventColl) : EventColl × Option Err :=
  match iaddGo c (iaddFlatten other) with
  | (c', none) => (c', none)
  | (c', some _) =>
      match copyEC c with
      | none => (c', some .attributeError)
      | some rolled => (⟨rolled.subs⟩, some .subscriptionError)

/-- Repeated applications of the sub-mapping update `m[seg0 v] = seg1 v`
performed by `__setitem__` for one multi-value header. -/
def foldNested (m : List (Str × Str)) (vs : List Str) : List (Str × Str) :=
  vs.foldl (fun acc s => dInsert acc (seg0 s) (seg1 s)) m

/-- The last element of `vs` whose first `=`-segment equals `k`. -/
def lastMatch (k : Str) : List Str → Option Str
  | [] => none
  | s :: rest =>
      match lastMatch k rest with
      | some r => some r
      | none => if seg0 s = k then some s else none

/-- Buffers reachable by `read_response` alone contain only packets that
carry `Response` or at least do not carry `Event`. -/
def responseOnly (buffer : List Packet) : Prop :=
  ∀ q ∈ buffer, hasKeyP q "Response".data = true ∨ hasKeyP q "Event".data = false

/-- Membership of a handler for an event name in a collection. -/
def isSubbed (c : EventColl) (n : Str) (h : Nat) : Prop :=
  h ∈ (plookup n c.subs).getD []

/-! ## Generic association-list lemmas -/

theorem plookup_dInsert [DecidableEq κ] (l : List (κ × α)) (k k₁ : κ) (v : α) :
    plookup k₁ (dInsert l k v) = if k = k₁ then some v else plookup k₁ l := by
  induction l with
  | nil => by_cases h : k = k₁ <;> simp [dInsert, plookup, h]
  | cons hd tl ih =>
    obtain ⟨k', v'⟩ := hd
    by_cases h1 : k' = k
    · subst h1
      by_cases h2 : k' = k₁ <;> simp [dInsert, plookup, h2]
    · by_cases h2 : k' = k₁
      · subst h2
        have : ¬ k = k' := fun h => h1 h.symm
        simp [dInsert, plookup, h1, this]
      · simp [dInsert, plookup, h1, h2, ih]

theorem plookup_dInsert_ne [DecidableEq κ] (l : List (κ × α)) (k k₁ : κ) (v : α)
    (h : k ≠ k₁) : plookup k₁ (dInsert l k v) = plookup k₁ l := by
  rw [plookup_dInsert]
  simp [h]

theorem plookup_popKey_self [DecidableEq κ] (l : List (κ × α)) (k : κ) :
    plookup k (popKey l k) = none := by
  induction l with
  | nil => simp [popKey, plookup]
  | cons hd tl ih =>
    obtain ⟨k', v'⟩ := hd
    by_cases h : k' = k
    · simpa [popKey, h] using ih
    · simpa [popKey, plookup, h] using ih

/-! ## Header-line splitting -/

theorem splitColonSpace_eq_some :
    ∀ (l k v : Str), splitColonSpace l = some (k, v) →
      l = k ++ ':' :: ' ' :: v ∧ splitColonSpace k = none := by
  intro l
  induction l with
  | nil => intro k v h; simp [splitColonSpace] at h
  | cons c rest ih =>
    intro k v h
    cases rest with
    | nil => simp [splitColonSpace] at h
    | cons d rest' =>
      by_cases hcd : c = ':' ∧ d = ' '
      · obtain ⟨hc, hd⟩ := hcd
        subst hc; subst hd
        simp [splitColonSpace] at h
        obtain ⟨hk, hv⟩ := h
        subst hk; subst hv
        exact ⟨rfl, rfl⟩
      · rw [splitColonSpace, if_neg hcd] at h
        cases hrec : splitColonSpace (d :: rest') with
        | none => rw [hrec] at h; exact absurd h (by simp)
        | some ab =>
          obtain ⟨a, b⟩ := ab
          rw [hrec] at h
          simp at h
          obtain ⟨hk, hv⟩ := h
          subst hv
          obtain ⟨hdr, hnone⟩ := ih a b hrec
          subst hk
          constructor
          · simp [hdr]
          · -- `c :: a` still has no colon-space separator
            cases ha : a with
            | nil => simp [splitColonSpace]
            | cons a0 a' =>
              subst ha
              have hne : ¬ (c = ':' ∧ a0 = ' ') := by
                intro hca
                apply hcd
                have : d = a0 := by
                  have := hdr
                  simp at this
                  exact this.1.symm ▸ rfl
                exact ⟨hca.1, this ▸ hca.2⟩
              rw [splitColonSpace, if_neg hne, hnone]

/-- Claim C9: a header line with exactly one colon which is its last
character parses to the name before the colon with an empty value; otherwise
the line is split on the first occurrence of colon-space, the name being the
part before it and the value the remainder taken verbatim; a line with no
recognisable separator fails with the parser's malformed-line error. -/
theorem claim_C9 :
    (∀ l : Str, countColon l = 1 → l.getLast? = some ':' →
        parseHeaderLine l = .ok (l.dropLast, [])) ∧
    (∀ l k v : Str, ¬ (countColon l = 1 ∧ l.getLast? = some ':') →
        splitColonSpace l = some (k, v) →
        parseHeaderLine l = .ok (k, v) ∧ l = k ++ ':' :: ' ' :: v ∧
          splitColonSpace k = none) ∧
    (∀ l : Str, ¬ (countColon l = 1 ∧ l.getLast? = some ':') →
        splitColonSpace l = none → parseHeaderLine l = .error .malformed) := by
  refine ⟨?_, ?_, ?_⟩
  · intro l h1 h2
    rw [parseHeaderLine, if_pos ⟨h1, h2⟩]
  · intro l k v hshape hsplit
    obtain ⟨hdr, hnone⟩ := splitColonSpace_eq_some l k v hsplit
    rw [parseHeaderLine, if_neg hshape, hsplit]
    exact ⟨rfl, hdr, hnone⟩
  · intro l hshape hnone
    rw [parseHeaderLine, if_neg hshape, hnone]

theorem claim_C9_witness :
    parseHeaderLine "Name:".data = .ok ("Name:".data.dropLast, []) ∧
    parseHeaderLine "Key: a: b".data = .ok ("Key".data, "a: b".data) ∧
    parseHeaderLine "nosep".data = .error .malformed :=
  ⟨claim_C9.1 "Name:".data (by decide) (by decide),
   (claim_C9.2.1 "Key: a: b".data "Key".data "a: b".data (by decide) (by decide)).1,
   claim_C9.2.2 "nosep".data (by decide) (by decide)⟩

theorem dInsert_of_plookup_none [DecidableEq κ] (l : List (κ × α)) (k : κ) (v : α)
    (h : plookup k l = none) : dInsert l k v = l ++ [(k, v)] := by
  induction l with
  | nil => simp [dInsert]
  | cons hd tl ih =>
    obtain ⟨k', v'⟩ := hd
    by_cases hk : k' = k
    · simp [plookup, hk] at h
    · simp only [plookup, if_neg hk] at h
      simp [dInsert, hk, ih h]

/-! ## The Follows sub-grammar -/

theorem leadsWith_append (p x : Str) : leadsWith p (p ++ x) = true := by
  induction p with
  | nil => rfl
  | cons c cs ih => simp [leadsWith, ih]

theorem dropWhile_length_le (p : α → Bool) (l : List α) :
    (l.dropWhile p).length ≤ l.length := by
  induction l with
  | nil => simp
  | cons c t ih =>
    rw [List.dropWhile_cons]
    cases p c
    · simp
    · simpa using Nat.le_succ_of_le ih

theorem pyRstrip_append (x y : Str) (hy : y ≠ []) (hclean : pyRstrip y = y) :
    pyRstrip (x ++ y) = x ++ y := by
  have h1 : y.reverse.dropWhile isPyWs = y.reverse := by
    have := congrArg List.reverse hclean
    simpa [pyRstrip] using this
  obtain ⟨c, t, hct⟩ : ∃ c t, y.reverse = c :: t := by
    cases hyr : y.reverse with
    | nil => exact absurd (by simpa using hyr) hy
    | cons c t => exact ⟨c, t, rfl⟩
  have hc : isPyWs c = false := by
    by_contra hcc
    have hcc' : isPyWs c = true := by
      cases hval : isPyWs c
      · exact absurd hval hcc
      · rfl
    rw [hct, List.dropWhile_cons, hcc'] at h1
    have hlen := congrArg List.length h1
    have hle := dropWhile_length_le isPyWs t
    simp at hlen
    omega
  unfold pyRstrip
  rw [List.reverse_append, hct, List.cons_append, List.dropWhile_cons, hc]
  simp only [Bool.false_eq_true, if_false]
  rw [← List.cons_append, ← hct, ← List.reverse_append]
  simp

theorem rrfGo_clean (lins : List Str) :
    ∀ (rest : List Str) (n : Nat) (acc : List Str) (aid : Option Str), 2 ≤ n →
      (∀ l ∈ lins, pyRstrip l = l ∧ l ≠ [] ∧ l ≠ "--END COMMAND--".data) →
      rrfGo (lins ++ "--END COMMAND--".data :: [] :: rest) n acc aid =
        (acc ++ lins, aid, rest) := by
  induction lins with
  | nil =>
    intro rest n acc aid hn _
    have hterm : pyRstrip "--END COMMAND--".data = "--END COMMAND--".data := by decide
    have hn1 : ¬ n = 1 := by omega
    simp [rrfGo, hterm, hn1]
  | cons l ls ih =>
    intro rest n acc aid hn hclean
    obtain ⟨hcl, hne, hterm⟩ := hclean l (by simp)
    have hn1 : ¬ n = 1 := by omega
    rw [List.cons_append, rrfGo]
    simp only [hcl, hn1, false_and, if_false]
    rw [if_neg (by simp [hne, hterm])]
    rw [ih rest (n + 1) (acc ++ [l]) aid (by omega) (fun q hq => hclean q (by simp [hq]))]
    simp

/-- Claim C4 (amended): encoding a `Follows` body and parsing it recovers the
original `Lines` list provided every body line is nonempty, unaffected by
`rstrip`, and distinct from the terminator, and (when no `ActionID` line is
present) the first body line does not begin with `"ActionID: "`; the parse
stops at a line equal to `--END COMMAND--` **or at an empty line**, lifts an
optional leading `ActionID` line into the packet, and consumes exactly one
additional line after the terminator (the trailing `rest` is left unread). -/
theorem claim_C4 :
    ∀ (aid : Option Str) (lins : List Str) (rest : List Str),
      (∀ l ∈ lins, pyRstrip l = l ∧ l ≠ [] ∧ l ≠ "--END COMMAND--".data) →
      (match aid with
       | none => ∀ l ∈ lins.take 1, leadsWith "ActionID: ".data l = false
       | some a => pyRstrip a = a ∧ a ≠ []) →
      readResponseFollows (encodeFollowsBody aid lins ++ rest) =
        ((match aid with
          | some a => [("Response".data, .str "Follows".data),
                       ("Lines".data, .lins lins),
                       ("ActionID".data, .str a)]
          | none => [("Response".data, .str "Follows".data),
                     ("Lines".data, .lins lins)]), rest) := by
  intro aid lins rest hclean haid
  cases aid with
  | none =>
    have hgo1 : rrfGo (encodeFollowsBody none lins ++ rest) 1 [] none =
        (lins, none, rest) := by
      cases lins with
      | nil =>
        have hterm : pyRstrip "--END COMMAND--".data = "--END COMMAND--".data := by
          decide
        have hlw : leadsWith "ActionID: ".data "--END COMMAND--".data = false := by
          decide
        have henc : encodeFollowsBody none [] ++ rest =
            "--END COMMAND--".data :: [] :: rest := by simp [encodeFollowsBody]
        rw [henc, rrfGo]
        simp [hterm, hlw]
      | cons l ls =>
        obtain ⟨hcl, hne, hterm⟩ := hclean l (by simp)
        have hlead : leadsWith "ActionID: ".data l = false := haid l (by simp)
        have henc : encodeFollowsBody none (l :: ls) ++ rest =
            l :: (ls ++ "--END COMMAND--".data :: [] :: rest) := by
          simp [encodeFollowsBody]
        rw [henc, rrfGo]
        simp only [hcl, hlead, and_false, Bool.false_eq_true, if_false]
        rw [if_neg (by simp [hne, hterm])]
        have h2 : (1 + 1 : Nat) = 2 := rfl
        rw [h2, List.nil_append,
            rrfGo_clean ls rest 2 [l] none (by omega)
              (fun q hq => hclean q (by simp [hq]))]
        simp
    rw [readResponseFollows, hgo1]
  | some a =>
    obtain ⟨hacl, hane⟩ := haid
    have hline : pyRstrip ("ActionID: ".data ++ a) = "ActionID: ".data ++ a :=
      pyRstrip_append _ _ hane hacl
    have hdrop : ("ActionID: ".data ++ a).drop 10 = a := by
      have h10 : (10 : Nat) = ("ActionID: ".data).length := by decide
      rw [h10, List.drop_left]
    have henc : encodeFollowsBody (some a) lins ++ rest =
        ("ActionID: ".data ++ a) ::
          (lins ++ "--END COMMAND--".data :: [] :: rest) := by
      simp [encodeFollowsBody]
    have hgo1 : rrfGo (encodeFollowsBody (some a) lins ++ rest) 1 [] none =
        (lins, some a, rest) := by
      rw [henc, rrfGo]
      simp only [hline, leadsWith_append, and_true, true_and, if_true]
      have h2 : (1 + 1 : Nat) = 2 := rfl
      rw [hdrop, h2,
          rrfGo_clean lins rest 2 [] (some a) (by omega) hclean]
      simp
    rw [readResponseFollows, hgo1]
    have hbase : dInsert
        [(("Response".data : Str), HVal.str "Follows".data),
         (("Lines".data : Str), HVal.lins lins)] "ActionID".data (HVal.str a) =
        [("Response".data, HVal.str "Follows".data),
         ("Lines".data, HVal.lins lins),
         ("ActionID".data, HVal.str a)] := by
      rw [dInsert_of_plookup_none]
      · rfl
      · rw [plookup, if_neg (by decide), plookup, if_neg (by decide), plookup]
    simp [hbase]

theorem claim_C4_counterexample :
    plookup "Lines".data (readResponseFollows (encodeFollowsBody none [[]])).1 =
      some (.lins []) ∧ ([([] : Str)] : List Str) ≠ ([] : List Str) :=
  ⟨by decide, by decide⟩

theorem claim_C4_witness :
    readResponseFollows (encodeFollowsBody (some "T3".data)
        ["System uptime: 1:23:45".data, "Last reload: 0:01:02".data] ++ []) =
      ([("Response".data, .str "Follows".data),
        ("Lines".data, .lins ["System uptime: 1:23:45".data,
                              "Last reload: 0:01:02".data]),
        ("ActionID".data, .str "T3".data)], []) :=
  claim_C4 (some "T3".data)
    ["System uptime: 1:23:45".data, "Last reload: 0:01:02".data] []
    (by decide) (by decide)

/-! ## Multi-value header collapse -/

theorem plookup_foldNested (k : Str) :
    ∀ (vs : List Str) (m : List (Str × Str)),
      plookup k (foldNested m vs) =
        match lastMatch k vs with
        | some s => some (seg1 s)
        | none => plookup k m := by
  intro vs
  induction vs with
  | nil => intro m; rfl
  | cons s rest ih =>
    intro m
    have hstep : foldNested m (s :: rest) =
        foldNested (dInsert m (seg0 s) (seg1 s)) rest := rfl
    rw [hstep, ih, lastMatch]
    cases hl : lastMatch k rest with
    | some r => simp
    | none =>
      simp only
      rw [plookup_dInsert]
      by_cases h : seg0 s = k <;> simp [h]

theorem lastMatch_isSome (k : Str) :
    ∀ vs : List Str, (lastMatch k vs).isSome = true ↔ ∃ s ∈ vs, seg0 s = k := by
  intro vs
  induction vs with
  | nil => simp [lastMatch]
  | cons s rest ih =>
    rw [lastMatch]
    cases hl : lastMatch k rest with
    | some r =>
      simp only [Option.isSome_some, true_iff]
      obtain ⟨r', hr', hk⟩ := ih.mp (by rw [hl]; rfl)
      exact ⟨r', by simp [hr'], hk⟩
    | none =>
      by_cases h : seg0 s = k
      · simp [h]
      · rw [if_neg h]
        rw [hl] at ih
        have hrest : ¬ ∃ s' ∈ rest, seg0 s' = k := by
          intro hx
          have := ih.mpr hx
          simp at this
        constructor
        · intro hfalse; simp at hfalse
        · rintro ⟨s', hs', hk⟩
          rcases List.mem_cons.mp hs' with rfl | hmem
          · exact absurd hk h
          · exact absurd ⟨s', hmem, hk⟩ hrest

theorem plookup_foldNested_base (k v : Str) (vs : List Str) :
    plookup k (foldNested [(seg0 v, seg1 v)] vs) =
      match lastMatch k (v :: vs) with
      | some s => some (seg1 s)
      | none => none := by
  rw [plookup_foldNested, lastMatch]
  cases hl : lastMatch k vs with
  | some r => simp
  | none => by_cases h : seg0 v = k <;> simp [plookup, h]

theorem foldSetItem_nested (key : Str) (hkey : isMultiValueField key = true) :
    ∀ (vs : List Str) (d : Packet) (m : List (Str × Str)),
      plookup key d = some (.nested m) →
      (∀ s ∈ vs, s.contains '=' = true) →
      ∃ d', foldSetItem key d vs = .ok d' ∧
        plookup key d' = some (.nested (foldNested m vs)) := by
  intro vs
  induction vs with
  | nil =>
    intro d m hm _
    exact ⟨d, rfl, by rw [foldNested]; simpa using hm⟩
  | cons v vs' ih =>
    intro d m hm hall
    have hv : v.contains '=' = true := hall v (List.mem_cons_self v vs')
    have hcond : (isMultiValueField key && v.contains '=') = true := by
      rw [hkey, hv]; rfl
    have hset : setItemStr d key v =
        .ok (dInsert d key (.nested (dInsert m (seg0 v) (seg1 v)))) := by
      rw [setItemStr, if_pos hcond, hm]
    have hstep : foldSetItem key d (v :: vs') =
        foldSetItem key (dInsert d key (.nested (dInsert m (seg0 v) (seg1 v)))) vs' := by
      rw [foldSetItem, List.foldlM_cons, hset]
      rfl
    rw [hstep]
    have hm1 : plookup key (dInsert d key (.nested (dInsert m (seg0 v) (seg1 v)))) =
        some (.nested (dInsert m (seg0 v) (seg1 v))) := by
      rw [plookup_dInsert]; simp
    obtain ⟨d', hfold, hlook⟩ :=
      ih _ _ hm1 (fun s hs => hall s (by simp [hs]))
    exact ⟨d', hfold, by rw [hlook]; rfl⟩

theorem foldSetItem_plain (key : Str) (hkey : isMultiValueField key = false) :
    ∀ (vs : List Str) (w : Str) (d : Packet), vs.getLast? = some w →
      ∃ d', foldSetItem key d vs = .ok d' ∧ plookup key d' = some (.str w) := by
  intro vs
  induction vs with
  | nil => intro w d h; simp at h
  | cons v vs' ih =>
    intro w d hlast
    have hset : setItemStr d key v = .ok (dInsert d key (.str v)) := by
      rw [setItemStr, if_neg]
      rw [hkey]
      simp
    have hstep : foldSetItem key d (v :: vs') =
        foldSetItem key (dInsert d key (.str v)) vs' := by
      rw [foldSetItem, List.foldlM_cons, hset]
      rfl
    cases vs' with
    | nil =>
      have hw : w = v := by simpa using hlast.symm
      subst hw
      refine ⟨dInsert d key (.str w), hstep.trans rfl, ?_⟩
      rw [plookup_dInsert]
      simp
    | cons u us =>
      have hlast' : (u :: us).getLast? = some w := by
        rw [List.getLast?_cons_cons] at hlast
        exact hlast
      obtain ⟨d', hfold, hlook⟩ := ih w (dInsert d key (.str v)) hlast'
      exact ⟨d', hstep.trans hfold, hlook⟩

/-- Claim C7 (amended): repeated insertions under `ChanVariable` or
`DestChanVariable` with `=`-containing values collapse into a nested mapping
whose keys are exactly the left-hand sides of the `=`-splits observed, and
whose value for each key is the **second `=`-separated segment** of the last
value inserted with that left-hand side (the source keeps
`value.split('=')[:2]`, not the full remainder after the first `=`); every
header name outside the multi-value set is last-write-wins. -/
theorem claim_C7 :
    (∀ (key : Str) (d0 : Packet) (v : Str) (vs : List Str),
        isMultiValueField key = true → plookup key d0 = none →
        (∀ s ∈ v :: vs, s.contains '=' = true) →
        ∃ d' M, foldSetItem key d0 (v :: vs) = .ok d' ∧
          plookup key d' = some (.nested M) ∧
          (∀ k, (plookup k M).isSome = true ↔ ∃ s ∈ v :: vs, seg0 s = k) ∧
          (∀ k s, lastMatch k (v :: vs) = some s →
              plookup k M = some (seg1 s))) ∧
    (∀ (key : Str) (d0 : Packet) (vs : List Str) (w : Str),
        isMultiValueField key = false → vs.getLast? = some w →
        ∃ d', foldSetItem key d0 vs = .ok d' ∧
          plookup key d' = some (.str w)) := by
  constructor
  · intro key d0 v vs hkey hnone hall
    have hv : v.contains '=' = true := hall v (List.mem_cons_self v vs)
    have hcond : (isMultiValueField key && v.contains '=') = true := by
      rw [hkey, hv]; rfl
    have hset : setItemStr d0 key v =
        .ok (dInsert d0 key (.nested [(seg0 v, seg1 v)])) := by
      rw [setItemStr, if_pos hcond, hnone]
    have hstep : foldSetItem key d0 (v :: vs) =
        foldSetItem key (dInsert d0 key (.nested [(seg0 v, seg1 v)])) vs := by
      rw [foldSetItem, List.foldlM_cons, hset]
      rfl
    have hm1 : plookup key (dInsert d0 key (.nested [(seg0 v, seg1 v)])) =
        some (.nested [(seg0 v, seg1 v)]) := by
      rw [plookup_dInsert]; simp
    obtain ⟨d', hfold, hlook⟩ :=
      foldSetItem_nested key hkey vs _ _ hm1 (fun s hs => hall s (by simp [hs]))
    refine ⟨d', foldNested [(seg0 v, seg1 v)] vs, hstep.trans hfold, hlook, ?_, ?_⟩
    · intro k
      rw [plookup_foldNested_base]
      cases hl : lastMatch k (v :: vs) with
      | some r =>
        simp only [Option.isSome_some, true_iff]
        exact (lastMatch_isSome k (v :: vs)).mp (by rw [hl]; rfl)
      | none =>
        simp only [Option.isSome_none]
        constructor
        · intro hfalse; simp at hfalse
        · intro hex
          have := (lastMatch_isSome k (v :: vs)).mpr hex
          rw [hl] at this
          simp at this
    · intro k s hl
      rw [plookup_foldNested_base, hl]
  · intro key d0 vs w hkey hlast
    exact foldSetItem_plain key hkey vs w d0 hlast

theorem claim_C7_counterexample :
    foldSetItem "ChanVariable".data [] ["k1=v1".data, "k2=x=y".data] =
      .ok [("ChanVariable".data,
            .nested [("k1".data, "v1".data), ("k2".data, "x".data)])] ∧
    ("x".data : Str) ≠ "x=y".data :=
  ⟨by decide, by decide⟩

theorem claim_C7_witness :
    (∃ d' M, foldSetItem "ChanVariable".data [] ["a=1".data, "b=2".data] = .ok d' ∧
        plookup "ChanVariable".data d' = some (.nested M) ∧
        (∀ k, (plookup k M).isSome = true ↔
            ∃ s ∈ ["a=1".data, "b=2".data], seg0 s = k) ∧
        (∀ k s, lastMatch k ["a=1".data, "b=2".data] = some s →
            plookup k M = some (seg1 s))) ∧
    (∃ d', foldSetItem "Channel".data [] ["one".data, "two".data] = .ok d' ∧
        plookup "Channel".data d' = some (.str "two".data)) :=
  ⟨claim_C7.1 "ChanVariable".data [] "a=1".data ["b=2".data]
      (by decide) (by decide) (by decide),
   claim_C7.2 "Channel".data [] ["one".data, "two".data] "two".data
      (by decide) (by decide)⟩

/-! ## Event dispatch -/

theorem plookup_transStep (q : Packet) (ck key : Str) (h : ck ≠ key) :
    plookup key (match plookup ck q with
      | some (.str s) => dInsert q ck (getChannel s)
      | _ => q) = plookup key q := by
  cases hx : plookup ck q with
  | none => rfl
  | some v =>
    cases v with
    | str s => exact plookup_dInsert_ne q ck key (getChannel s) h
    | nested m => rfl
    | chan z i => rfl
    | lins ls => rfl

theorem plookup_translateEvent (p : Packet) (key : Str)
    (h1 : key ≠ "Channel".data) (h2 : key ≠ "Channel1".data)
    (h3 : key ≠ "Channel2".data) :
    plookup key (translateEvent p) = plookup key p := by
  rw [translateEvent]
  simp only [List.foldl]
  rw [plookup_transStep _ _ _ (Ne.symm h3),
      plookup_transStep _ _ _ (Ne.symm h2),
      plookup_transStep _ _ _ (Ne.symm h1)]

/-- Claim C2 (amended): for an inbound packet carrying `Event` and not
carrying `Response`, dispatch first translates the channel headers (leaving
the `Event` header unchanged), looks up the specific handler `on_<Event>`
first and the fallback `on_Event` second; when both are absent the dispatch
raises `InternalError` — it does **not** drop the event silently. -/
theorem claim_C2 :
    ∀ (hs : Handlers) (p : Packet),
      hasKeyP p "Event".data = true → hasKeyP p "Response".data = false →
      evName (translateEvent p) = evName p ∧
      (hs.specific (evName p) = true →
        dispatchPacket hs p = .ok (.specific (evName p) (translateEvent p))) ∧
      (hs.specific (evName p) = false → hs.fallback = true →
        dispatchPacket hs p = .ok (.fallback (evName p) (translateEvent p))) ∧
      (hs.specific (evName p) = false → hs.fallback = false →
        dispatchPacket hs p = .error .internalError) := by
  intro hs p hev hresp
  have hname : evName (translateEvent p) = evName p := by
    rw [evName, evName, plookup_translateEvent] <;> decide
  refine ⟨hname, ?_, ?_, ?_⟩
  · intro hspec
    rw [dispatchPacket]
    simp only [hresp, Bool.false_eq_true, if_false, hev, if_true, hname, hspec]
  · intro hspec hfall
    rw [dispatchPacket]
    simp only [hresp, Bool.false_eq_true, if_false, hev, if_true, hname, hspec,
               hfall]
  · intro hspec hfall
    rw [dispatchPacket]
    simp only [hresp, Bool.false_eq_true, if_false, hev, if_true, hname, hspec,
               hfall]

theorem claim_C2_counterexample :
    dispatchPacket ⟨fun _ => false, false⟩ [("Event".data, .str "Foo".data)] =
      .error .internalError := by decide

theorem claim_C2_witness :
    dispatchPacket ⟨fun _ => false, true⟩
        [("Event".data, .str "Foo".data),
         ("Channel".data, .str "Zap/1".data)] =
      .ok (.fallback "Foo".data
        [("Event".data, .str "Foo".data),
         ("Channel".data, .chan true "Zap/1".data)]) := by
  have h := (claim_C2 ⟨fun _ => false, true⟩
      [("Event".data, .str "Foo".data), ("Channel".data, .str "Zap/1".data)]
      (by decide) (by decide)).2.2.1 rfl rfl
  exact h.trans (by decide)

/-! ## Originate, ActionID minting, close, QueueStatus aggregation -/

/-- Claim C6 (amended): `Originate` counts the dialplan style as supplied
when `channel`, `context` and `extension` are all given (`priority` is not
consulted).  Supplying both that style and `application`, or neither, fails
with `ActionFailed` before any write; with exactly one style and a nonempty
channel the action is written. -/
theorem claim_C6 :
    ∀ (clock : Str) (channel context extension priority application dataArg
        timeout caller_id variableArg account : Option Str) (async_flag : Bool),
      ((channel.isSome && context.isSome && extension.isSome) = true →
        application.isSome = true →
        OriginateModel clock channel context extension priority application
          dataArg timeout caller_id variableArg account async_flag =
          .error .actionFailed) ∧
      ((channel.isSome && context.isSome && extension.isSome) = false →
        application.isSome = false →
        OriginateModel clock channel context extension priority application
          dataArg timeout caller_id variableArg account async_flag =
          .error .actionFailed) ∧
      ((channel.isSome && context.isSome && extension.isSome) = true →
        application.isSome = false → channel ≠ some [] →
        ∃ out, OriginateModel clock channel context extension priority
          application dataArg timeout caller_id variableArg account
          async_flag = .ok out) ∧
      (application.isSome = true →
        (channel.isSome && context.isSome && extension.isSome) = false →
        channel ≠ none → channel ≠ some [] →
        ∃ out, OriginateModel clock channel context extension priority
          application dataArg timeout caller_id variableArg account
          async_flag = .ok out) := by
  intro clock channel context extension priority application dataArg timeout
    caller_id variableArg account async_flag
  refine ⟨?_, ?_, ?_, ?_⟩
  · intro hd ha
    rw [OriginateModel]
    simp only [hd, ha, Bool.and_self, if_true]
  · intro hd ha
    rw [OriginateModel]
    simp only [hd, ha, Bool.and_false, Bool.false_and, Bool.false_or,
               Bool.not_false, if_true, Bool.false_eq_true, if_false]
  · intro hd ha hch
    rw [OriginateModel]
    have hchsome : channel.isSome = true := by
      rcases Bool.and_eq_true_iff.mp (Bool.and_eq_true_iff.mp hd).1 with ⟨h, _⟩
      exact h
    have hchne : channel ≠ none := by
      intro hx; rw [hx] at hchsome; simp at hchsome
    simp only [hd, ha, Bool.and_false, Bool.false_eq_true, if_false,
               Bool.true_or, Bool.not_true, if_true]
    rw [if_neg (by rintro (h | h); exacts [hchne h, hch h])]
    exact ⟨_, rfl⟩
  · intro ha hd hchn hche
    rw [OriginateModel]
    simp only [hd, ha, Bool.false_and, Bool.and_true, Bool.false_eq_true,
               if_false, Bool.or_true, Bool.not_true, if_true]
    rw [if_neg (by rintro (h | h); exacts [hchn h, hche h])]
    exact ⟨_, rfl⟩

theorem claim_C6_counterexample :
    OriginateModel "1.0".data (some "SIP/1".data) (some "ctx".data)
        (some "100".data) none none none none none none none false =
      .ok ("1.0".data,
        ["Action: Originate".data, "ActionID: 1.0".data,
         "Channel: SIP/1".data, "Context: ctx".data, "Exten: 100".data,
         "Async: 0".data, []]) := by decide

theorem claim_C6_witness :
    OriginateModel "2.0".data (some "SIP/1".data) (some "ctx".data)
        (some "100".data) (some "1".data) (some "Playback".data) none none
        none none none false = .error .actionFailed :=
  (claim_C6 "2.0".data (some "SIP/1".data) (some "ctx".data)
      (some "100".data) (some "1".data) (some "Playback".data) none none
      none none none false).1 (by decide) (by decide)

/-- Claim C8 (amended): the ActionID minted by `_write_action` is exactly the
string form of the wall-clock reading at the time of the write, so two
writes observing different clock strings mint different ActionIDs;
uniqueness holds **only** under that clock assumption. -/
theorem claim_C8 :
    ∀ (c1 c2 a1 a2 : Str) (d1 d2 : List (Str × Option Str)),
      c1 ≠ c2 →
      (writeActionModel c1 a1 d1).1 ≠ (writeActionModel c2 a2 d2).1 := by
  intro c1 c2 a1 a2 d1 d2 h
  simpa [writeActionModel] using h

theorem claim_C8_counterexample :
    (writeActionModel "1699999999.99".data "Ping".data []).1 =
      (writeActionModel "1699999999.99".data "Logoff".data []).1 ∧
    ("Ping".data : Str) ≠ "Logoff".data :=
  ⟨rfl, by decide⟩

theorem claim_C8_witness :
    (writeActionModel "1.0".data "Ping".data []).1 ≠
      (writeActionModel "2.0".data "Ping".data []).1 :=
  claim_C8 "1.0".data "2.0".data "Ping".data "Ping".data [] [] (by decide)

/-- Claim C3 evaluated at the failing input: during `close`, an event packet
arriving before the `Goodbye` response is **not** discarded — `close` raises
`KeyError` on `packet.Response` (the `discard_events` flag of `_read_packet`
is accepted but never consulted).  A directly arriving `Goodbye` succeeds,
and any other `Response` value is `CommunicationError`. -/
theorem claim_C3 :
    closeModel ["Event: Foo".data, [], "Response: Goodbye".data, []] =
      .error .keyError ∧
    closeModel ["Response: Goodbye".data, []] = .ok () ∧
    closeModel ["Response: Borked".data, []] = .error .communicationError :=
  ⟨by decide, by decide, by decide⟩

/-- Claim C5 evaluated at the failing input: the `QueueEntry` capture handler
pops `Channel` from the original event instead of the stored record, so the
record inserted under the `Channel` key still contains its `Channel` header;
the sibling `QueueMember` handler (shown for contrast) strips its
`Location` key as the claim requires. -/
theorem claim_C5 :
    (Except.bind (queueParamsH [] [("Event".data, .str "QueueParams".data),
        ("ActionID".data, .str "1".data), ("Queue".data, .str "q".data),
        ("Max".data, .str "0".data)]) (fun qs =>
      queueEntryH qs [("Event".data, .str "QueueEntry".data),
        ("ActionID".data, .str "1".data), ("Queue".data, .str "q".data),
        ("Channel".data, .str "SIP/100-1".data),
        ("Position".data, .str "1".data)])) =
      .ok [(.str "q".data,
            ⟨[("Max".data, .str "0".data)], [],
             [(.str "SIP/100-1".data,
               [("Channel".data, .str "SIP/100-1".data),
                ("Position".data, .str "1".data)])]⟩)] ∧
    (Except.bind (queueParamsH [] [("Event".data, .str "QueueParams".data),
        ("ActionID".data, .str "1".data), ("Queue".data, .str "q".data),
        ("Max".data, .str "0".data)]) (fun qs =>
      queueMemberH qs [("Event".data, .str "QueueMember".data),
        ("ActionID".data, .str "1".data), ("Queue".data, .str "q".data),
        ("Location".data, .str "Agent/1".data),
        ("Penalty".data, .str "0".data)])) =
      .ok [(.str "q".data,
            ⟨[("Max".data, .str "0".data)],
             [(.str "Agent/1".data, [("Penalty".data, .str "0".data)])],
             []⟩)] :=
  ⟨by decide, by decide⟩

/-! ## EventCollection merge -/

theorem subscribeEC_ok (c : EventColl) (n : Str) (h : Nat) (c' : EventColl)
    (hsub : subscribeEC c n h = .ok c') :
    c' = ⟨dInsert c.subs n ((plookup n c.subs).getD [] ++ [h])⟩ := by
  rw [subscribeEC] at hsub
  by_cases hdup : h ∈ (plookup n c.subs).getD []
  · rw [if_pos hdup] at hsub
    exact absurd hsub (by simp)
  · rw [if_neg hdup] at hsub
    exact (Except.ok.inj hsub).symm

theorem subscribeEC_mono (c c' : EventColl) (n : Str) (h : Nat)
    (hsub : subscribeEC c n h = .ok c') :
    ∀ m g, isSubbed c m g → isSubbed c' m g := by
  intro m g hmem
  rw [subscribeEC_ok c n h c' hsub]
  rw [isSubbed] at hmem ⊢
  simp only
  rw [plookup_dInsert]
  by_cases hnm : n = m
  · subst hnm
    simp only [if_pos rfl, Option.getD_some]
    exact List.mem_append_left _ hmem
  · rw [if_neg hnm]
    exact hmem

theorem subscribeEC_adds (c c' : EventColl) (n : Str) (h : Nat)
    (hsub : subscribeEC c n h = .ok c') : isSubbed c' n h := by
  rw [subscribeEC_ok c n h c' hsub, isSubbed]
  simp only
  rw [plookup_dInsert, if_pos rfl]
  simp

theorem iaddGo_mono :
    ∀ (pairs : List (Str × Nat)) (c c' : EventColl) (res : Option (Str × Nat)),
      iaddGo c pairs = (c', res) → ∀ m g, isSubbed c m g → isSubbed c' m g := by
  intro pairs
  induction pairs with
  | nil =>
    intro c c' res hgo m g hmem
    rw [iaddGo] at hgo
    cases hgo
    exact hmem
  | cons q rest ih =>
    intro c c' res hgo m g hmem
    obtain ⟨n, h⟩ := q
    rw [iaddGo] at hgo
    cases hs : subscribeEC c n h with
    | ok c1 =>
      rw [hs] at hgo
      exact ih c1 c' res hgo m g (subscribeEC_mono c c1 n h hs m g hmem)
    | error e =>
      rw [hs] at hgo
      cases hgo
      exact hmem

theorem iaddGo_none :
    ∀ (pairs : List (Str × Nat)) (c c' : EventColl),
      iaddGo c pairs = (c', none) → ∀ q ∈ pairs, isSubbed c' q.1 q.2 := by
  intro pairs
  induction pairs with
  | nil => intro c c' _ q hq; simp at hq
  | cons q0 rest ih =>
    intro c c' hgo q hq
    obtain ⟨n, h⟩ := q0
    rw [iaddGo] at hgo
    cases hs : subscribeEC c n h with
    | ok c1 =>
      rw [hs] at hgo
      rcases List.mem_cons.mp hq with rfl | hmem
      · exact iaddGo_mono rest c1 c' none hgo n h (subscribeEC_adds c c1 n h hs)
      · exact ih c1 c' hgo q hmem
    | error e =>
      rw [hs] at hgo
      exact absurd hgo (by simp)

theorem iaddGo_some :
    ∀ (pairs : List (Str × Nat)) (c c' : EventColl) (bad : Str × Nat),
      iaddGo c pairs = (c', some bad) →
      ∃ pre post, pairs = pre ++ bad :: post ∧ iaddGo c pre = (c', none) := by
  intro pairs
  induction pairs with
  | nil => intro c c' bad hgo; rw [iaddGo] at hgo; exact absurd hgo (by simp)
  | cons q0 rest ih =>
    intro c c' bad hgo
    obtain ⟨n, h⟩ := q0
    rw [iaddGo] at hgo
    cases hs : subscribeEC c n h with
    | ok c1 =>
      rw [hs] at hgo
      obtain ⟨pre, post, hsplit, hpre⟩ := ih c1 c' bad hgo
      refine ⟨(n, h) :: pre, post, by simp [hsplit], ?_⟩
      rw [iaddGo, hs]
      exact hpre
    | error e =>
      rw [hs] at hgo
      obtain ⟨h1, h2⟩ := Prod.mk.injEq .. ▸ hgo
      cases hgo
      exact ⟨[], rest, rfl, rfl⟩

/-- Claim C10: `EventCollection.copy` returns `None`; consequently a failing
`+=` merge leaves the handlers merged before the duplicate subscribed in the
left operand — the rollback raises `AttributeError` on `None` before any
state is restored, so the merge is not atomic on error. -/
theorem claim_C10 :
    (∀ c : EventColl, copyEC c = none) ∧
    (∀ (c other c' : EventColl) (e : Err),
      iaddEC c other = (c', some e) →
      e = .attributeError ∧
      ∃ pre bad post, iaddFlatten other = pre ++ bad :: post ∧
        iaddGo c pre = (c', none) ∧
        ∀ q ∈ pre, isSubbed c' q.1 q.2) := by
  constructor
  · intro c; rfl
  · intro c other c' e hiadd
    rw [iaddEC] at hiadd
    cases hgo : iaddGo c (iaddFlatten other) with
    | mk c1 bd =>
      rw [hgo] at hiadd
      cases bd with
      | none => exact absurd hiadd (by simp)
      | some bad =>
        simp only [copyEC] at hiadd
        obtain ⟨hc, he⟩ := Prod.mk.injEq .. ▸ hiadd
        refine ⟨(Option.some.inj he).symm, ?_⟩
        obtain ⟨pre, post, hsplit, hpre⟩ :=
          iaddGo_some (iaddFlatten other) c c1 bad (hc ▸ hgo)
        exact ⟨pre, bad, post, hsplit, hc ▸ hpre,
               fun q hq => hc ▸ iaddGo_none pre c c1 hpre q hq⟩

theorem claim_C10_witness :
    ∃ pre bad post,
      iaddFlatten ⟨[("Y".data, [2]), ("X".data, [1])]⟩ = pre ++ bad :: post ∧
      iaddGo ⟨[("X".data, [1])]⟩ pre =
        (⟨[("X".data, [1]), ("Y".data, [2])]⟩, none) ∧
      ∀ q ∈ pre, isSubbed ⟨[("X".data, [1]), ("Y".data, [2])]⟩ q.1 q.2 :=
  (claim_C10.2 ⟨[("X".data, [1])]⟩ ⟨[("Y".data, [2]), ("X".data, [1])]⟩
      ⟨[("X".data, [1]), ("Y".data, [2])]⟩ .attributeError (by decide)).2

/-! ## read_response -/

theorem dispatch_buffered (hs : Handlers) (p : Packet)
    (h : dispatchPacket hs p = .ok .buffered) :
    hasKeyP p "Response".data = true := by
  rw [dispatchPacket] at h
  split_ifs at h with h1 h2 h3 h4 <;> first | exact h1 | simp at h

theorem dispatch_specific (hs : Handlers) (p : Packet) (ev : Str) (q : Packet)
    (h : dispatchPacket hs p = .ok (.specific ev q)) :
    hasKeyP p "Response".data = false ∧ hasKeyP p "Event".data = true ∧
      q = translateEvent p := by
  rw [dispatchPacket] at h
  split_ifs at h with h1 h2 h3 h4 <;>
    first
    | (injection h with hinj
       injection hinj with hev hq
       exact ⟨by simpa using h1, h2, hq.symm⟩)
    | simp at h

theorem dispatch_fallback (hs : Handlers) (p : Packet) (ev : Str) (q : Packet)
    (h : dispatchPacket hs p = .ok (.fallback ev q)) :
    hasKeyP p "Response".data = false ∧ hasKeyP p "Event".data = true ∧
      q = translateEvent p := by
  rw [dispatchPacket] at h
  split_ifs at h with h1 h2 h3 h4 <;>
    first
    | (injection h with hinj
       injection hinj with hev hq
       exact ⟨by simpa using h1, h2, hq.symm⟩)
    | simp at h

theorem scanBuffer_some (id : Str) :
    ∀ (buffer : List Packet) (q : Packet) (buf' : List Packet),
      scanBuffer id buffer = .ok (some (q, buf')) →
      q ∈ buffer ∧ plookup "ActionID".data q = some (.str id) := by
  intro buffer
  induction buffer with
  | nil => intro q buf' h; rw [scanBuffer] at h; exact absurd h (by simp)
  | cons p ps ih =>
    intro q buf' h
    rw [scanBuffer] at h
    cases hl : plookup "ActionID".data p with
    | none => rw [hl] at h; exact absurd h (by simp)
    | some v =>
      rw [hl] at h
      dsimp only at h
      by_cases hv : v = .str id
      · rw [if_pos hv] at h
        obtain ⟨hq, _⟩ := Prod.mk.injEq .. ▸ Option.some.inj (Except.ok.inj h)
        exact ⟨by simp [← hq], by rw [← hq, hl, hv]⟩
      · rw [if_neg hv] at h
        cases hrec : scanBuffer id ps with
        | error e => rw [hrec] at h; exact absurd h (by simp)
        | ok o =>
          cases o with
          | none => rw [hrec] at h; exact absurd h (by simp)
          | some qqs =>
            obtain ⟨q0, qs⟩ := qqs
            rw [hrec] at h
            obtain ⟨hq, _⟩ := Prod.mk.injEq .. ▸ Option.some.inj (Except.ok.inj h)
            obtain ⟨hmem, hlook⟩ := ih q0 qs hrec
            exact ⟨by simp [← hq, hmem], by rw [← hq]; exact hlook⟩

theorem scanBuffer_some_keep (id : Str) :
    ∀ (buffer : List Packet) (x : Packet) (buf' : List Packet),
      scanBuffer id buffer = .ok (some (x, buf')) →
      ∀ q ∈ buffer, ∀ v, plookup "ActionID".data q = some v →
        v ≠ .str id → q ∈ buf' := by
  intro buffer
  induction buffer with
  | nil => intro x buf' h; rw [scanBuffer] at h; exact absurd h (by simp)
  | cons p ps ih =>
    intro x buf' h q hq v hv hne
    rw [scanBuffer] at h
    cases hl : plookup "ActionID".data p with
    | none => rw [hl] at h; exact absurd h (by simp)
    | some w =>
      rw [hl] at h
      dsimp only at h
      by_cases hw : w = .str id
      · rw [if_pos hw] at h
        obtain ⟨hx, hb⟩ := Prod.mk.injEq .. ▸ Option.some.inj (Except.ok.inj h)
        rcases List.mem_cons.mp hq with rfl | hmem
        · rw [hl] at hv
          exact absurd ((Option.some.inj hv).symm.trans hw) hne
        · rw [← hb]
          exact hmem
      · rw [if_neg hw] at h
        cases hrec : scanBuffer id ps with
        | error e => rw [hrec] at h; exact absurd h (by simp)
        | ok o =>
          cases o with
          | none => rw [hrec] at h; exact absurd h (by simp)
          | some qqs =>
            obtain ⟨q0, qs⟩ := qqs
            rw [hrec] at h
            obtain ⟨hx, hb⟩ := Prod.mk.injEq .. ▸ Option.some.inj (Except.ok.inj h)
            rcases List.mem_cons.mp hq with rfl | hmem
            · rw [← hb]
              exact List.mem_cons_self _ _
            · rw [← hb]
              exact List.mem_cons_of_mem _ (ih q0 qs hrec q hmem v hv hne)

theorem rrGo_scan_hit (hs : Handlers) (id : Str) (stream buffer : List Packet)
    (p : Packet) (buf' : List Packet)
    (h : scanBuffer id buffer = .ok (some (p, buf'))) :
    rrGo hs id stream buffer = .ok ⟨popKey p "ActionID".data, buf', stream, []⟩ := by
  cases stream with
  | nil => rw [rrGo, h]
  | cons q qs => rw [rrGo, h]

theorem rrGo_no_actionid (hs : Handlers) (id : Str) (ps buffer : List Packet)
    (p : Packet) (hscan : scanBuffer id buffer = .ok none)
    (hev : hasKeyP p "Event".data = false)
    (haid : hasKeyP p "ActionID".data = false) :
    rrGo hs id (p :: ps) buffer = .error .communicationError := by
  rw [rrGo, hscan]
  dsimp only
  rw [if_neg (by simp [hev]), if_pos (by simp [haid])]

theorem rrGo_ok_props (hs : Handlers) (id : Str) :
    ∀ (stream buffer : List Packet) (r : RRResult),
      rrGo hs id stream buffer = .ok r →
      (∀ q ∈ r.dispatched, ∃ p, p ∈ stream ∧ hasKeyP p "Event".data = true ∧
          hasKeyP p "Response".data = false ∧ q = translateEvent p) ∧
      plookup "ActionID".data r.ret = none ∧
      (∀ q ∈ buffer, ∀ v, plookup "ActionID".data q = some v → v ≠ .str id →
          q ∈ r.buffer) ∧
      (∀ p ∈ stream, hasKeyP p "Event".data = false →
          ∀ v, plookup "ActionID".data p = some v → v ≠ .str id →
          p ∈ r.buffer ∨ p ∈ r.rest) := by
  intro stream
  induction stream with
  | nil =>
    intro buffer r h
    rw [rrGo] at h
    cases hscan : scanBuffer id buffer with
    | error e => rw [hscan] at h; simp at h
    | ok o =>
      rw [hscan] at h
      cases o with
      | none => simp at h
      | some pb =>
        obtain ⟨p, buf'⟩ := pb
        dsimp only at h
        have hr := (Except.ok.inj h).symm
        subst hr
        refine ⟨fun q hq => absurd hq (by simp),
                plookup_popKey_self p "ActionID".data, ?_,
                fun px hpx => absurd hpx (by simp)⟩
        intro q hq v hv hne
        exact scanBuffer_some_keep id buffer p buf' hscan q hq v hv hne
  | cons p ps ih =>
    intro buffer r h
    rw [rrGo] at h
    cases hscan : scanBuffer id buffer with
    | error e => rw [hscan] at h; simp at h
    | ok o =>
      rw [hscan] at h
      cases o with
      | some pb =>
        obtain ⟨q0, buf'⟩ := pb
        dsimp only at h
        have hr := (Except.ok.inj h).symm
        subst hr
        refine ⟨fun q hq => absurd hq (by simp),
                plookup_popKey_self q0 "ActionID".data, ?_, ?_⟩
        · intro q hq v hv hne
          exact scanBuffer_some_keep id buffer q0 buf' hscan q hq v hv hne
        · intro px hpx _ v _ _
          exact Or.inr hpx
      | none =>
        dsimp only at h
        by_cases hev : hasKeyP p "Event".data = true
        · rw [if_pos hev] at h
          cases hd : dispatchPacket hs p with
          | error e => rw [hd] at h; simp at h
          | ok dout =>
            rw [hd] at h
            cases dout with
            | buffered =>
              dsimp only at h
              obtain ⟨ih1, ih2, ih3, ih4⟩ := ih (buffer ++ [p]) r h
              refine ⟨?_, ih2, ?_, ?_⟩
              · intro q hq
                obtain ⟨p', hp1, hp2, hp3, hp4⟩ := ih1 q hq
                exact ⟨p', List.mem_cons_of_mem _ hp1, hp2, hp3, hp4⟩
              · intro q hq v hv hne
                exact ih3 q (List.mem_append_left _ hq) v hv hne
              · intro px hpx hevx v hv hne
                rcases List.mem_cons.mp hpx with rfl | hmem
                · rw [hev] at hevx
                  exact absurd hevx (by simp)
                · exact ih4 px hmem hevx v hv hne
            | specific ev q1 =>
              dsimp only at h
              cases hrec : rrGo hs id ps buffer with
              | error e => rw [hrec] at h; simp at h
              | ok r' =>
                rw [hrec] at h
                dsimp only at h
                have hr := (Except.ok.inj h).symm
                subst hr
                obtain ⟨ih1, ih2, ih3, ih4⟩ := ih buffer r' hrec
                obtain ⟨hrf, hevt, hq1⟩ := dispatch_specific hs p ev q1 hd
                refine ⟨?_, ih2, ih3, ?_⟩
                · intro q hq
                  rcases List.mem_cons.mp hq with rfl | hmem
                  · exact ⟨p, List.mem_cons_self _ _, hevt, hrf, hq1⟩
                  · obtain ⟨p', hp1, hp2, hp3, hp4⟩ := ih1 q hmem
                    exact ⟨p', List.mem_cons_of_mem _ hp1, hp2, hp3, hp4⟩
                · intro px hpx hevx v hv hne
                  rcases List.mem_cons.mp hpx with rfl | hmem
                  · rw [hev] at hevx
                    exact absurd hevx (by simp)
                  · exact ih4 px hmem hevx v hv hne
            | fallback ev q1 =>
              dsimp only at h
              cases hrec : rrGo hs id ps buffer with
              | error e => rw [hrec] at h; simp at h
              | ok r' =>
                rw [hrec] at h
                dsimp only at h
                have hr := (Except.ok.inj h).symm
                subst hr
                obtain ⟨ih1, ih2, ih3, ih4⟩ := ih buffer r' hrec
                obtain ⟨hrf, hevt, hq1⟩ := dispatch_fallback hs p ev q1 hd
                refine ⟨?_, ih2, ih3, ?_⟩
                · intro q hq
                  rcases List.mem_cons.mp hq with rfl | hmem
                  · exact ⟨p, List.mem_cons_self _ _, hevt, hrf, hq1⟩
                  · obtain ⟨p', hp1, hp2, hp3, hp4⟩ := ih1 q hmem
                    exact ⟨p', List.mem_cons_of_mem _ hp1, hp2, hp3, hp4⟩
                · intro px hpx hevx v hv hne
                  rcases List.mem_cons.mp hpx with rfl | hmem
                  · rw [hev] at hevx
                    exact absurd hevx (by simp)
                  · exact ih4 px hmem hevx v hv hne
        · rw [if_neg hev] at h
          by_cases haid : hasKeyP p "ActionID".data = true
          · rw [if_neg (by simp [haid])] at h
            by_cases hmatch : plookup "ActionID".data p = some (.str id)
            · rw [if_pos hmatch] at h
              have hr := (Except.ok.inj h).symm
              subst hr
              refine ⟨fun q hq => absurd hq (by simp),
                      plookup_popKey_self p "ActionID".data, ?_, ?_⟩
              · intro q hq v hv hne
                exact hq
              · intro px hpx hevx v hv hne
                rcases List.mem_cons.mp hpx with rfl | hmem
                · rw [hmatch] at hv
                  exact absurd (Option.some.inj hv).symm hne
                · exact Or.inr hmem
            · rw [if_neg hmatch] at h
              obtain ⟨ih1, ih2, ih3, ih4⟩ := ih (buffer ++ [p]) r h
              refine ⟨?_, ih2, ?_, ?_⟩
              · intro q hq
                obtain ⟨p', hp1, hp2, hp3, hp4⟩ := ih1 q hq
                exact ⟨p', List.mem_cons_of_mem _ hp1, hp2, hp3, hp4⟩
              · intro q hq v hv hne
                exact ih3 q (List.mem_append_left _ hq) v hv hne
              · intro px hpx hevx v hv hne
                rcases List.mem_cons.mp hpx with rfl | hmem
                · exact Or.inl (ih3 px
                    (List.mem_append_right _ (List.mem_cons_self _ _)) v hv hne)
                · exact ih4 px hmem hevx v hv hne
          · rw [if_pos haid] at h
            simp at h

theorem rrGo_ret_prov (hs : Handlers) (id : Str) :
    ∀ (stream buffer : List Packet) (r : RRResult),
      responseOnly buffer → rrGo hs id stream buffer = .ok r →
      ∃ q, (q ∈ buffer ∨ q ∈ stream) ∧
        plookup "ActionID".data q = some (.str id) ∧
        r.ret = popKey q "ActionID".data ∧
        (hasKeyP q "Response".data = true ∨ hasKeyP q "Event".data = false) := by
  intro stream
  induction stream with
  | nil =>
    intro buffer r hro h
    rw [rrGo] at h
    cases hscan : scanBuffer id buffer with
    | error e => rw [hscan] at h; simp at h
    | ok o =>
      rw [hscan] at h
      cases o with
      | none => simp at h
      | some pb =>
        obtain ⟨p, buf'⟩ := pb
        dsimp only at h
        have hr := (Except.ok.inj h).symm
        subst hr
        obtain ⟨hmem, hlook⟩ := scanBuffer_some id buffer p buf' hscan
        exact ⟨p, Or.inl hmem, hlook, rfl, hro p hmem⟩
  | cons p ps ih =>
    intro buffer r hro h
    rw [rrGo] at h
    cases hscan : scanBuffer id buffer with
    | error e => rw [hscan] at h; simp at h
    | ok o =>
      rw [hscan] at h
      cases o with
      | some pb =>
        obtain ⟨q0, buf'⟩ := pb
        dsimp only at h
        have hr := (Except.ok.inj h).symm
        subst hr
        obtain ⟨hmem, hlook⟩ := scanBuffer_some id buffer q0 buf' hscan
        exact ⟨q0, Or.inl hmem, hlook, rfl, hro q0 hmem⟩
      | none =>
        dsimp only at h
        by_cases hev : hasKeyP p "Event".data = true
        · rw [if_pos hev] at h
          cases hd : dispatchPacket hs p with
          | error e => rw [hd] at h; simp at h
          | ok dout =>
            rw [hd] at h
            cases dout with
            | buffered =>
              dsimp only at h
              have hresp := dispatch_buffered hs p hd
              have hro' : responseOnly (buffer ++ [p]) := by
                intro q hq
                rcases List.mem_append.mp hq with hmem | hmem
                · exact hro q hmem
                · rcases List.mem_cons.mp hmem with rfl | hx
                  · exact Or.inl hresp
                  · simp at hx
              obtain ⟨q, hq1, hq2, hq3, hq4⟩ := ih (buffer ++ [p]) r hro' h
              refine ⟨q, ?_, hq2, hq3, hq4⟩
              rcases hq1 with hmem | hmem
              · rcases List.mem_append.mp hmem with hx | hx
                · exact Or.inl hx
                · rcases List.mem_cons.mp hx with rfl | hy
                  · exact Or.inr (List.mem_cons_self _ _)
                  · simp at hy
              · exact Or.inr (List.mem_cons_of_mem _ hmem)
            | specific ev q1 =>
              dsimp only at h
              cases hrec : rrGo hs id ps buffer with
              | error e => rw [hrec] at h; simp at h
              | ok r' =>
                rw [hrec] at h
                dsimp only at h
                have hr := (Except.ok.inj h).symm
                subst hr
                obtain ⟨q, hq1, hq2, hq3, hq4⟩ := ih buffer r' hro hrec
                refine ⟨q, ?_, hq2, hq3, hq4⟩
                rcases hq1 with hmem | hmem
                · exact Or.inl hmem
                · exact Or.inr (List.mem_cons_of_mem _ hmem)
            | fallback ev q1 =>
              dsimp only at h
              cases hrec : rrGo hs id ps buffer with
              | error e => rw [hrec] at h; simp at h
              | ok r' =>
                rw [hrec] at h
                dsimp only at h
                have hr := (Except.ok.inj h).symm
                subst hr
                obtain ⟨q, hq1, hq2, hq3, hq4⟩ := ih buffer r' hro hrec
                refine ⟨q, ?_, hq2, hq3, hq4⟩
                rcases hq1 with hmem | hmem
                · exact Or.inl hmem
                · exact Or.inr (List.mem_cons_of_mem _ hmem)
        · rw [if_neg hev] at h
          have hevf : hasKeyP p "Event".data = false := by
            cases hx : hasKeyP p "Event".data
            · rfl
            · exact absurd hx hev
          by_cases haid : hasKeyP p "ActionID".data = true
          · rw [if_neg (by simp [haid])] at h
            by_cases hmatch : plookup "ActionID".data p = some (.str id)
            · rw [if_pos hmatch] at h
              have hr := (Except.ok.inj h).symm
              subst hr
              exact ⟨p, Or.inr (List.mem_cons_self _ _), hmatch, rfl,
                     Or.inr hevf⟩
            · rw [if_neg hmatch] at h
              have hro' : responseOnly (buffer ++ [p]) := by
                intro q hq
                rcases List.mem_append.mp hq with hmem | hmem
                · exact hro q hmem
                · rcases List.mem_cons.mp hmem with rfl | hx
                  · exact Or.inr hevf
                  · simp at hx
              obtain ⟨q, hq1, hq2, hq3, hq4⟩ := ih (buffer ++ [p]) r hro' h
              refine ⟨q, ?_, hq2, hq3, hq4⟩
              rcases hq1 with hmem | hmem
              · rcases List.mem_append.mp hmem with hx | hx
                · exact Or.inl hx
                · rcases List.mem_cons.mp hx with rfl | hy
                  · exact Or.inr (List.mem_cons_self _ _)
                  · simp at hy
              · exact Or.inr (List.mem_cons_of_mem _ hmem)
          · rw [if_pos haid] at h
            simp at h

/-- Claim C1 (amended): during `read_response id`, a buffered packet with a
matching `ActionID` is consumed (and removed from the buffer) before any new
packet is read; a freshly read packet with no `Event` and no `ActionID`
header raises `CommunicationError`; on a successful return, every dispatched
packet is the translation of a stream packet carrying `Event` and **not**
`Response` (a packet carrying both is routed to the response buffer instead,
and may be returned to the awaiter if its `ActionID` matches), the returned
packet has its `ActionID` header removed, non-matching packets in the buffer
are never dropped, non-matching non-event stream packets end up buffered or
unread, and the returned packet originates from a buffered or stream packet
whose `ActionID` equals `id` and which is never a pure event packet. -/
theorem claim_C1 :
    (∀ (hs : Handlers) (id : Str) (stream buffer : List Packet)
        (p : Packet) (buf' : List Packet),
        scanBuffer id buffer = .ok (some (p, buf')) →
        rrGo hs id stream buffer =
          .ok ⟨popKey p "ActionID".data, buf', stream, []⟩) ∧
    (∀ (hs : Handlers) (id : Str) (ps buffer : List Packet) (p : Packet),
        scanBuffer id buffer = .ok none →
        hasKeyP p "Event".data = false → hasKeyP p "ActionID".data = false →
        rrGo hs id (p :: ps) buffer = .error .communicationError) ∧
    (∀ (hs : Handlers) (id : Str) (stream buffer : List Packet) (r : RRResult),
        rrGo hs id stream buffer = .ok r →
        (∀ q ∈ r.dispatched, ∃ p, p ∈ stream ∧
            hasKeyP p "Event".data = true ∧
            hasKeyP p "Response".data = false ∧ q = translateEvent p) ∧
        plookup "ActionID".data r.ret = none ∧
        (∀ q ∈ buffer, ∀ v, plookup "ActionID".data q = some v →
            v ≠ .str id → q ∈ r.buffer) ∧
        (∀ p ∈ stream, hasKeyP p "Event".data = false →
            ∀ v, plookup "ActionID".data p = some v → v ≠ .str id →
            p ∈ r.buffer ∨ p ∈ r.rest)) ∧
    (∀ (hs : Handlers) (id : Str) (stream buffer : List Packet) (r : RRResult),
        responseOnly buffer → rrGo hs id stream buffer = .ok r →
        ∃ q, (q ∈ buffer ∨ q ∈ stream) ∧
          plookup "ActionID".data q = some (.str id) ∧
          r.ret = popKey q "ActionID".data ∧
          (hasKeyP q "Response".data = true ∨ hasKeyP q "Event".data = false)) :=
  ⟨rrGo_scan_hit,
   rrGo_no_actionid,
   fun hs id stream buffer r h => rrGo_ok_props hs id stream buffer r h,
   fun hs id stream buffer r hro h => rrGo_ret_prov hs id stream buffer r hro h⟩

theorem claim_C1_counterexample :
    rrGo ⟨fun _ => true, true⟩ "42".data
        [[("Event".data, .str "Weird".data),
          ("Response".data, .str "Success".data),
          ("ActionID".data, .str "42".data)]] [] =
      .ok ⟨[("Event".data, .str "Weird".data),
            ("Response".data, .str "Success".data)], [], [], []⟩ := by decide

theorem claim_C1_witness :
    rrGo ⟨fun _ => true, true⟩ "1".data
        [[("Response".data, .str "Ok".data)]] [] =
      .error .communicationError :=
  claim_C1.2.1 ⟨fun _ => true, true⟩ "1".data [] []
    [("Response".data, .str "Ok".data)] rfl (by decide) (by decide)
